import Mathlib

/-
Verification development for the Python-to-C++ translator in
`cd_project.py`.  The four pipeline stages — `tokenize`, `parse_tokens`,
`generate_ir`, `generate_cpp` — are embedded below as executable Lean
functions over `List Char` / `String`, mirroring the source line by line.
The regex character classes `\w`, `\d`, `[A-Za-z_]` are modelled over the
ASCII range, which is the range the grammar's inputs use.
-/

deriving instance DecidableEq for Except

set_option maxRecDepth 100000
set_option maxHeartbeats 1000000

namespace CdProject

/-- The token kinds of the lexer's `token_spec` table, in source order.
`NEWLINE` and `SKIP` are produced by the scanner and immediately
discarded; `MISMATCH` is represented by the error case of the scanner. -/
inductive TokKind where
  | DEF | PRINT | STRING | NUMBER | ASSIGN | LPAREN | RPAREN
  | COLON | COMMA | PLUS | ID | NEWLINE | SKIP
  deriving DecidableEq, Repr

abbrev Token := TokKind × String

/-- ASCII model of the regex class `\w`. -/
def isWordChar (c : Char) : Bool := c.isAlpha || c.isDigit || c = '_'

/-- ASCII model of the regex class `[A-Za-z_]` leading an `ID`. -/
def isIdStart (c : Char) : Bool := c.isAlpha || c = '_'

/-- The `SKIP` class `[ \t]`. -/
def isSpaceTab (c : Char) : Bool := c = ' ' || c = '\t'

/-- The trailing word boundary of a keyword: end of input or a
non-word character. -/
def boundaryAfter : List Char → Bool
  | [] => true
  | c :: _ => !isWordChar c

/-- Strip the literal characters of a keyword from the front of the
input, returning the remainder when they all match. -/
def stripLead : List Char → List Char → Option (List Char)
  | [], cs => some cs
  | _ :: _, [] => none
  | k :: ks, c :: cs => if c = k then stripLead ks cs else none

/-- Match a keyword with its trailing word boundary (`def\b`, `print\b`);
the leading boundary is checked by the caller via the previous-character
flag. -/
def kwSuffix (kw cs : List Char) : Option (List Char) :=
  match stripLead kw cs with
  | some rest => if boundaryAfter rest then some rest else none
  | none => none

/-- Did the matched chunk end in a word character?  The scanner threads
this as the state needed by the leading `\b` of the keyword patterns. -/
def chunkEndsWord (t : List Char) : Bool :=
  match t.getLast? with
  | some c => isWordChar c
  | none => false

/-- One scan step at the current position: try the alternatives of
`token_spec` in their source priority order on the input `c :: cs`,
where `w` records whether the previous character was a word character
(for the keyword patterns' leading `\b`; `w = false` at the start of the
input).  Returns the matched kind, its text, and the rest of the input,
or the offending character for the `MISMATCH` case.  An unterminated
string literal falls through `NUMBER` … `SKIP` (none of which match
`"`), landing on `MISMATCH` with the quote character itself. -/
def scanOne (w : Bool) (c : Char) (cs : List Char) :
    Except Char (TokKind × List Char × List Char) :=
  match if w then none else kwSuffix ['d', 'e', 'f'] (c :: cs) with
  | some rest => .ok (.DEF, ['d', 'e', 'f'], rest)
  | none =>
  match if w then none else kwSuffix ['p', 'r', 'i', 'n', 't'] (c :: cs) with
  | some rest => .ok (.PRINT, ['p', 'r', 'i', 'n', 't'], rest)
  | none =>
  if c = '"' then
    match cs.dropWhile (· != '"') with
    | _ :: rest => .ok (.STRING, '"' :: (cs.takeWhile (· != '"') ++ ['"']), rest)
    | [] => .error c
  else if c.isDigit then .ok (.NUMBER, c :: cs.takeWhile Char.isDigit, cs.dropWhile Char.isDigit)
  else if c = '=' then .ok (.ASSIGN, [c], cs)
  else if c = '(' then .ok (.LPAREN, [c], cs)
  else if c = ')' then .ok (.RPAREN, [c], cs)
  else if c = ':' then .ok (.COLON, [c], cs)
  else if c = ',' then .ok (.COMMA, [c], cs)
  else if c = '+' then .ok (.PLUS, [c], cs)
  else if isIdStart c then .ok (.ID, c :: cs.takeWhile isWordChar, cs.dropWhile isWordChar)
  else if c = '\n' then .ok (.NEWLINE, [c], cs)
  else if isSpaceTab c then .ok (.SKIP, c :: cs.takeWhile isSpaceTab, cs.dropWhile isSpaceTab)
  else .error c

/-- The scanning loop of `tokenize`, with an explicit fuel argument for
structural recursion.  Every scan step consumes at least one character,
so fuel equal to the input length (as supplied by `tokenize`) never runs
out; the fuel-exhausted case is unreachable from `tokenize`. -/
def lexF : Nat → Bool → List Char → Except Char (List (TokKind × List Char))
  | _, _, [] => .ok []
  | 0, _, c :: _ => .error c
  | n + 1, w, c :: cs =>
    match scanOne w c cs with
    | .error e => .error e
    | .ok (k, t, rest) =>
      match lexF n (chunkEndsWord t) rest with
      | .error e => .error e
      | .ok toks => if k = .NEWLINE ∨ k = .SKIP then .ok toks else .ok ((k, t) :: toks)

/-- `tokenize(code)` from the source: scan the whole input, discarding
`NEWLINE`/`SKIP` matches and failing on the first `MISMATCH` with the
offending character (the payload of the `RuntimeError`). -/
def tokenize (s : String) : Except Char (List Token) :=
  match lexF s.data.length false s.data with
  | .error e => .error e
  | .ok toks => .ok (toks.map fun p => (p.1, String.mk p.2))

/-- The single statement shape of a function body:
`print(<string> + <identifier>)`. -/
inductive Stmt where
  | print (left right : String)
  deriving DecidableEq, Repr

/-- The two top-level syntax-node shapes built by `parse_tokens`. -/
inductive Node where
  | func (name param : String) (body : List Stmt)
  | call (name arg : String)
  deriving DecidableEq, Repr

/-- Parser failure: `expected` is the `SyntaxError` raised by `match`
(carrying the expected kind and the actual token, or `none` for `EOF`),
`unsupported` the `SyntaxError("Unsupported statement.")` of the
dispatch loop, and `indexError` the Python `IndexError` raised by the
unguarded `tokens[i]` body lookahead when the tokens are exhausted. -/
inductive PErr where
  | expected (exp : TokKind) (got : Option Token)
  | unsupported
  | indexError
  deriving DecidableEq, Repr

/-- The parser's `match(expected_type)` helper: if the current token's
kind matches, consume it and return its text; otherwise fail with the
expected kind and the actual token (or end of input). -/
def pmatch (expected : TokKind) : List Token → Except PErr (String × List Token)
  | t :: ts => if t.1 = expected then .ok (t.2, ts) else .error (.expected expected (some t))
  | [] => .error (.expected expected none)

/-- The `def` branch of the parse loop (source lines 50–67): the header
`def ID ( ID ) :`, then the unguarded `tokens[i][0] == 'PRINT'` body
check — which raises `IndexError` when the colon was the last token —
and the optional single print statement. -/
def parseDefStep (ts : List Token) : Except PErr (Node × List Token) :=
  match pmatch .DEF ts with
  | .error e => .error e
  | .ok (_, ts) =>
  match pmatch .ID ts with
  | .error e => .error e
  | .ok (func_name, ts) =>
  match pmatch .LPAREN ts with
  | .error e => .error e
  | .ok (_, ts) =>
  match pmatch .ID ts with
  | .error e => .error e
  | .ok (param, ts) =>
  match pmatch .RPAREN ts with
  | .error e => .error e
  | .ok (_, ts) =>
  match pmatch .COLON ts with
  | .error e => .error e
  | .ok (_, ts) =>
  match ts with
  | [] => .error .indexError
  | (k2, _) :: _ =>
  if k2 = .PRINT then
    match pmatch .PRINT ts with
    | .error e => .error e
    | .ok (_, ts) =>
    match pmatch .LPAREN ts with
    | .error e => .error e
    | .ok (_, ts) =>
    match pmatch .STRING ts with
    | .error e => .error e
    | .ok (left, ts) =>
    match pmatch .PLUS ts with
    | .error e => .error e
    | .ok (_, ts) =>
    match pmatch .ID ts with
    | .error e => .error e
    | .ok (right, ts) =>
    match pmatch .RPAREN ts with
    | .error e => .error e
    | .ok (_, ts) => .ok (.func func_name param [.print left right], ts)
  else .ok (.func func_name param [], ts)

/-- The call branch of the parse loop (source lines 69–73):
`ID ( STRING )`. -/
def parseCallStep (ts : List Token) : Except PErr (Node × List Token) :=
  match pmatch .ID ts with
  | .error e => .error e
  | .ok (func_name, ts) =>
  match pmatch .LPAREN ts with
  | .error e => .error e
  | .ok (_, ts) =>
  match pmatch .STRING ts with
  | .error e => .error e
  | .ok (arg, ts) =>
  match pmatch .RPAREN ts with
  | .error e => .error e
  | .ok (_, ts) => .ok (.call func_name arg, ts)

/-- The guarded one-token lookahead `i + 1 < len(tokens) and
tokens[i+1][0] == 'LPAREN'` of the dispatch rule. -/
def lparenNext : List Token → Bool
  | (k, _) :: _ => k == .LPAREN
  | [] => false

/-- The `while i < len(tokens)` dispatch loop of `parse_tokens`, with
fuel for structural recursion.  Each iteration consumes at least one
token, so fuel equal to the token count (as supplied by `parse_tokens`)
never runs out; the fuel-exhausted case is unreachable from
`parse_tokens`. -/
def parseF : Nat → List Token → Except PErr (List Node)
  | _, [] => .ok []
  | 0, _ :: _ => .error .indexError
  | n + 1, t :: rest =>
    if t.1 = .DEF then
      match parseDefStep (t :: rest) with
      | .error e => .error e
      | .ok (nd, ts2) =>
        match parseF n ts2 with
        | .error e => .error e
        | .ok ast => .ok (nd :: ast)
    else if t.1 = .ID ∧ lparenNext rest = true then
      match parseCallStep (t :: rest) with
      | .error e => .error e
      | .ok (nd, ts2) =>
        match parseF n ts2 with
        | .error e => .error e
        | .ok ast => .ok (nd :: ast)
    else .error .unsupported

/-- `parse_tokens(tokens)` from the source. -/
def parse_tokens (tokens : List Token) : Except PErr (List Node) :=
  parseF tokens.length tokens

/-- IR lines of a function body: `t1 = <left> + <right>` then
`print t1` for each print statement (the temporary is always `t1`). -/
def stmtIrLines : List Stmt → List String
  | [] => []
  | .print l r :: rest => ("t1 = " ++ l ++ " + " ++ r) :: "print t1" :: stmtIrLines rest

/-- The `ir_lines` accumulated by `generate_ir`, one node at a time in
traversal order. -/
def irLines : List Node → List String
  | [] => []
  | .func name param body :: rest =>
      ("func " ++ name ++ "(" ++ param ++ ")") ::
        (stmtIrLines body ++ ("endfunc" :: irLines rest))
  | .call name arg :: rest =>
      ("call " ++ name ++ "(" ++ arg ++ ")") :: irLines rest

/-- `generate_ir(ast_list)` from the source: the IR lines joined
with `\n`. -/
def generate_ir (nodes : List Node) : String := String.intercalate "\n" (irLines nodes)

/-- The fixed preamble of `generate_cpp` (including the `''` element
that renders as a blank line). -/
def preambleLines : List String :=
  ["#include <iostream>", "#include <string>", "using namespace std;", ""]

/-- C++ lines of a function body: one `cout` statement per print
statement. -/
def cppStmtLines : List Stmt → List String
  | [] => []
  | .print l r :: rest =>
      ("    cout << " ++ l ++ " + " ++ r ++ " << endl;") :: cppStmtLines rest

/-- The C++ fragment of one function definition (source lines 105–109). -/
def funcFragment (name param : String) (body : List Stmt) : List String :=
  ("void " ++ name ++ "(string " ++ param ++ ") \x7b") :: (cppStmtLines body ++ ["\x7d"])

/-- The node loop of `generate_cpp`: lines appended per node in
traversal order, threading the `main_added` flag; a call statement
lazily opens `main` (as the single element `'\nint main() {'`) the
first time one is seen.  Returns the appended lines and the final flag. -/
def cppBody : List Node → Bool → List String × Bool
  | [], ma => ([], ma)
  | .func n p b :: rest, ma =>
      let r := cppBody rest ma
      (funcFragment n p b ++ r.1, r.2)
  | .call n a :: rest, ma =>
      let r := cppBody rest true
      ((if ma then [] else ["\nint main() \x7b"]) ++
        (("    " ++ n ++ "(" ++ a ++ ");") :: r.1), r.2)

/-- The full `cpp_lines` list: preamble, node lines, and — only when
`main_added` ended true — the `return 0;` and closing brace lines. -/
def cppAllLines (nodes : List Node) : List String :=
  preambleLines ++ (cppBody nodes false).1 ++
    (if (cppBody nodes false).2 then ["    return 0;", "\x7d"] else [])

/-- `generate_cpp(ast_list)` from the source: the lines joined
with `\n`. -/
def generate_cpp (nodes : List Node) : String := String.intercalate "\n" (cppAllLines nodes)

/-- The per-node C++ fragment when no call statement exists anywhere:
a function definition's fragment (the call case is vacuous there). -/
def nodeDefLines : Node → List String
  | .func n p b => funcFragment n p b
  | .call _ _ => []

/-- Is this node a call statement? -/
def Node.isCall : Node → Bool
  | .call _ _ => true
  | .func _ _ _ => false

/-- The scanner's reachability relation: `LexReach w cs w2 cs2` holds
when the scan starting in state `(w, cs)` arrives at state `(w2, cs2)`
after zero or more successful scan steps. -/
inductive LexReach : Bool → List Char → Bool → List Char → Prop where
  | refl (w : Bool) (cs : List Char) : LexReach w cs w cs
  | step {w : Bool} {c : Char} {cs : List Char} {k : TokKind} {t rest : List Char}
      {w2 : Bool} {cs2 : List Char} :
      scanOne w c cs = .ok (k, t, rest) →
      LexReach (chunkEndsWord t) rest w2 cs2 →
      LexReach w (c :: cs) w2 cs2

/-! ### Scanner lemmas -/

theorem stripLead_eq_some (kw : List Char) :
    ∀ cs rest, stripLead kw cs = some rest → cs = kw ++ rest := by
  induction kw with
  | nil =>
    intro cs rest h
    simp only [stripLead, Option.some.injEq] at h
    simp [h]
  | cons k ks ih =>
    intro cs rest h
    cases cs with
    | nil => simp [stripLead] at h
    | cons c cs' =>
      simp only [stripLead] at h
      split at h
      · next hck => simp [hck, ih cs' rest h]
      · exact Option.noConfusion h

theorem kwSuffix_eq_some (kw cs rest : List Char) (h : kwSuffix kw cs = some rest) :
    cs = kw ++ rest := by
  unfold kwSuffix at h
  split at h
  · next r heq =>
    split at h
    · obtain rfl : r = rest := by simpa using h
      exact stripLead_eq_some kw cs _ heq
    · exact Option.noConfusion h
  · exact Option.noConfusion h

/-- A successful scan step consumes a nonempty chunk off the front of
the input, and `NEWLINE`/`SKIP` chunks consist of whitespace only. -/
theorem scanOne_ok (w : Bool) (c : Char) (cs : List Char) (k : TokKind) (t rest : List Char)
    (h : scanOne w c cs = .ok (k, t, rest)) :
    c :: cs = t ++ rest ∧ t ≠ [] ∧
      ((k = .NEWLINE ∨ k = .SKIP) → ∀ x ∈ t, x = ' ' ∨ x = '\t' ∨ x = '\n') := by
  unfold scanOne at h
  split at h
  · next rest' heq =>
    simp only [Except.ok.injEq, Prod.mk.injEq] at h
    obtain ⟨rfl, rfl, rfl⟩ := h
    cases w with
    | true => simp at heq
    | false =>
      simp only [if_neg Bool.false_ne_true, ite_false] at heq
      refine ⟨kwSuffix_eq_some _ _ _ heq, by simp, by simp⟩
  · split at h
    · next rest' heq =>
      simp only [Except.ok.injEq, Prod.mk.injEq] at h
      obtain ⟨rfl, rfl, rfl⟩ := h
      cases w with
      | true => simp at heq
      | false =>
        simp only [if_neg Bool.false_ne_true, ite_false] at heq
        refine ⟨kwSuffix_eq_some _ _ _ heq, by simp, by simp⟩
    · split at h
      · -- c = '"'
        next hc =>
        split at h
        · next x rest' heq =>
          simp only [Except.ok.injEq, Prod.mk.injEq] at h
          obtain ⟨rfl, rfl, rfl⟩ := h
          have hx : x = '"' := by
            have := List.head?_dropWhile_not (fun y => y != '"') cs
            rw [heq] at this
            simpa using this
          have hsplit : cs.takeWhile (· != '"') ++ cs.dropWhile (· != '"') = cs :=
            List.takeWhile_append_dropWhile _ cs
          refine ⟨?_, by simp, by simp⟩
          subst hc
          conv_lhs => rw [← hsplit, heq, hx]
          simp
        · exact Except.noConfusion h
      · split at h
        · -- NUMBER
          simp only [Except.ok.injEq, Prod.mk.injEq] at h
          obtain ⟨rfl, rfl, rfl⟩ := h
          refine ⟨?_, by simp, by simp⟩
          rw [List.cons_append, List.takeWhile_append_dropWhile]
        · split at h
          · simp only [Except.ok.injEq, Prod.mk.injEq] at h
            obtain ⟨rfl, rfl, rfl⟩ := h
            exact ⟨rfl, by simp, by simp⟩
          · split at h
            · simp only [Except.ok.injEq, Prod.mk.injEq] at h
              obtain ⟨rfl, rfl, rfl⟩ := h
              exact ⟨rfl, by simp, by simp⟩
            · split at h
              · simp only [Except.ok.injEq, Prod.mk.injEq] at h
                obtain ⟨rfl, rfl, rfl⟩ := h
                exact ⟨rfl, by simp, by simp⟩
              · split at h
                · simp only [Except.ok.injEq, Prod.mk.injEq] at h
                  obtain ⟨rfl, rfl, rfl⟩ := h
                  exact ⟨rfl, by simp, by simp⟩
                · split at h
                  · simp only [Except.ok.injEq, Prod.mk.injEq] at h
                    obtain ⟨rfl, rfl, rfl⟩ := h
                    exact ⟨rfl, by simp, by simp⟩
                  · split at h
                    · simp only [Except.ok.injEq, Prod.mk.injEq] at h
                      obtain ⟨rfl, rfl, rfl⟩ := h
                      exact ⟨rfl, by simp, by simp⟩
                    · split at h
                      · -- ID
                        simp only [Except.ok.injEq, Prod.mk.injEq] at h
                        obtain ⟨rfl, rfl, rfl⟩ := h
                        refine ⟨?_, by simp, by simp⟩
                        rw [List.cons_append, List.takeWhile_append_dropWhile]
                      · split at h
                        · -- NEWLINE
                          next hc =>
                          simp only [Except.ok.injEq, Prod.mk.injEq] at h
                          obtain ⟨rfl, rfl, rfl⟩ := h
                          exact ⟨rfl, by simp, by simp [hc]⟩
                        · split at h
                          · -- SKIP
                            next hc =>
                            simp only [Except.ok.injEq, Prod.mk.injEq] at h
                            obtain ⟨rfl, rfl, rfl⟩ := h
                            refine ⟨?_, by simp, ?_⟩
                            · rw [List.cons_append, List.takeWhile_append_dropWhile]
                            intro _ x hx
                            rcases List.mem_cons.mp hx with rfl | hx
                            · rcases (by simpa [isSpaceTab] using hc : x = ' ' ∨ x = '\t') with rfl | rfl
                              · exact Or.inl rfl
                              · exact Or.inr (Or.inl rfl)
                            · have := List.mem_takeWhile_imp hx
                              rcases (by simpa [isSpaceTab] using this : x = ' ' ∨ x = '\t') with rfl | rfl
                              · exact Or.inl rfl
                              · exact Or.inr (Or.inl rfl)
                          · exact Except.noConfusion h

/-- A successful scan step strictly shrinks the remaining input. -/
theorem scanOne_rest_lt (w : Bool) (c : Char) (cs : List Char) (k : TokKind) (t rest : List Char)
    (h : scanOne w c cs = .ok (k, t, rest)) : rest.length < (c :: cs).length := by
  obtain ⟨happ, hne, -⟩ := scanOne_ok w c cs k t rest h
  have hlen : (c :: cs).length = t.length + rest.length := by rw [happ, List.length_append]
  have ht : 0 < t.length := List.length_pos.mpr hne
  omega

/-- A failing scan step names exactly the character at the scan
position. -/
theorem scanOne_error (w : Bool) (c : Char) (cs : List Char) (e : Char)
    (h : scanOne w c cs = .error e) : e = c := by
  unfold scanOne at h
  split at h
  · exact Except.noConfusion h
  · split at h
    · exact Except.noConfusion h
    · split at h
      · split at h
        · exact Except.noConfusion h
        · injection h with h2
          exact h2.symm
      · split at h
        · exact Except.noConfusion h
        · split at h
          · exact Except.noConfusion h
          · split at h
            · exact Except.noConfusion h
            · split at h
              · exact Except.noConfusion h
              · split at h
                · exact Except.noConfusion h
                · split at h
                  · exact Except.noConfusion h
                  · split at h
                    · exact Except.noConfusion h
                    · split at h
                      · exact Except.noConfusion h
                      · split at h
                        · exact Except.noConfusion h
                        · split at h
                          · exact Except.noConfusion h
                          · injection h with h2
                            exact h2.symm

/-- The scan loop partitions its input into chunks: the kept tokens and
the discarded whitespace/newline runs, in order, concatenate back to
the input. -/
theorem lexF_chunks : ∀ (n : Nat) (w : Bool) (cs : List Char) (toks : List (TokKind × List Char)),
    lexF n w cs = .ok toks →
    ∃ chunks : List (TokKind × List Char),
      (chunks.map Prod.snd).flatten = cs ∧
      chunks.filter (fun p => !(p.1 == TokKind.NEWLINE || p.1 == TokKind.SKIP)) = toks ∧
      ∀ p ∈ chunks, (p.1 = TokKind.NEWLINE ∨ p.1 = TokKind.SKIP) →
        ∀ x ∈ p.2, x = ' ' ∨ x = '\t' ∨ x = '\n' := by
  intro n
  induction n with
  | zero =>
    intro w cs toks h
    cases cs with
    | nil =>
      refine ⟨[], by simp, ?_, by simp⟩
      simpa [lexF] using h
    | cons c cs' => exact Except.noConfusion h
  | succ n ih =>
    intro w cs toks h
    cases cs with
    | nil =>
      refine ⟨[], by simp, ?_, by simp⟩
      simpa [lexF] using h
    | cons c cs' =>
      simp only [lexF] at h
      cases hs : scanOne w c cs' with
      | error e =>
        simp only [hs] at h
        exact Except.noConfusion h
      | ok res =>
        obtain ⟨k, t, rest⟩ := res
        simp only [hs] at h
        cases hrec : lexF n (chunkEndsWord t) rest with
        | error e =>
          simp only [hrec] at h
          exact Except.noConfusion h
        | ok toks' =>
          simp only [hrec] at h
          obtain ⟨happ, -, hwhite⟩ := scanOne_ok w c cs' k t rest hs
          obtain ⟨chunks', h1, h2, h3⟩ := ih (chunkEndsWord t) rest toks' hrec
          by_cases hsk : k = TokKind.NEWLINE ∨ k = TokKind.SKIP
          · rw [if_pos hsk] at h
            injection h with h4
            refine ⟨(k, t) :: chunks', ?_, ?_, ?_⟩
            · rw [List.map_cons, List.flatten_cons, h1, happ]
            · rw [List.filter_cons]
              have hb : (!(k == TokKind.NEWLINE || k == TokKind.SKIP)) = false := by
                rcases hsk with rfl | rfl <;> simp
              rw [hb]
              simp only [Bool.false_eq_true, if_false]
              rw [h2, h4]
            · intro p hp hpk x hx
              rcases List.mem_cons.mp hp with rfl | hp
              · exact hwhite hpk x hx
              · exact h3 p hp hpk x hx
          · rw [if_neg hsk] at h
            injection h with h4
            refine ⟨(k, t) :: chunks', ?_, ?_, ?_⟩
            · rw [List.map_cons, List.flatten_cons, h1, happ]
            · rw [List.filter_cons]
              have hb : (!(k == TokKind.NEWLINE || k == TokKind.SKIP)) = true := by
                push_neg at hsk
                simp [hsk.1, hsk.2]
              rw [hb]
              simp only [if_true]
              rw [h2, h4]
            · intro p hp hpk x hx
              rcases List.mem_cons.mp hp with rfl | hp
              · exact absurd hpk hsk
              · exact h3 p hp hpk x hx

theorem scanOne_space (w : Bool) (cs : List Char) :
    scanOne w ' ' cs = .ok (.SKIP, ' ' :: cs.takeWhile isSpaceTab, cs.dropWhile isSpaceTab) := by
  cases w <;> rfl

theorem scanOne_tab (w : Bool) (cs : List Char) :
    scanOne w '\t' cs = .ok (.SKIP, '\t' :: cs.takeWhile isSpaceTab, cs.dropWhile isSpaceTab) := by
  cases w <;> rfl

theorem scanOne_newline (w : Bool) (cs : List Char) :
    scanOne w '\n' cs = .ok (.NEWLINE, ['\n'], cs) := by
  cases w <;> rfl

/-- Scanning an all-whitespace input succeeds and yields no tokens. -/
theorem lexF_white : ∀ (n : Nat) (w : Bool) (cs : List Char), cs.length ≤ n →
    (∀ x ∈ cs, x = ' ' ∨ x = '\t' ∨ x = '\n') → lexF n w cs = .ok [] := by
  intro n
  induction n with
  | zero =>
    intro w cs hlen _
    cases cs with
    | nil => rfl
    | cons c cs' => simp at hlen
  | succ n ih =>
    intro w cs hlen hw
    cases cs with
    | nil => rfl
    | cons c cs' =>
      have hlen' : cs'.length ≤ n := by simpa using hlen
      have hdroplen : (cs'.dropWhile isSpaceTab).length ≤ n :=
        le_trans (List.dropWhile_sublist isSpaceTab).length_le hlen'
      have hdropwhite : ∀ x ∈ cs'.dropWhile isSpaceTab, x = ' ' ∨ x = '\t' ∨ x = '\n' :=
        fun x hx => hw x (List.mem_cons_of_mem c ((List.dropWhile_sublist isSpaceTab).subset hx))
      have hwhite' : ∀ x ∈ cs', x = ' ' ∨ x = '\t' ∨ x = '\n' :=
        fun x hx => hw x (List.mem_cons_of_mem c hx)
      rcases hw c (List.mem_cons_self c cs') with rfl | rfl | rfl
      · simp only [lexF, scanOne_space, ih _ _ hdroplen hdropwhite]
        simp
      · simp only [lexF, scanOne_tab, ih _ _ hdroplen hdropwhite]
        simp
      · simp only [lexF, scanOne_newline, ih _ _ hlen' hwhite']
        simp

/-- A scan-step failure makes the whole scan loop fail with the same
payload. -/
theorem lexF_err_at (w : Bool) (c : Char) (cs : List Char) (e : Char)
    (hs : scanOne w c cs = .error e) :
    ∀ n, (c :: cs).length ≤ n → lexF n w (c :: cs) = .error e := by
  intro n hlen
  cases n with
  | zero => simp at hlen
  | succ m =>
    simp only [lexF, hs]

/-- A failure at any reachable scan position propagates to the start of
the scan. -/
theorem lexF_err_prop : ∀ (w : Bool) (cs : List Char) (w2 : Bool) (cs2 : List Char),
    LexReach w cs w2 cs2 → ∀ (e : Char),
    (∀ m, cs2.length ≤ m → lexF m w2 cs2 = .error e) →
    ∀ n, cs.length ≤ n → lexF n w cs = .error e := by
  intro w cs w2 cs2 hr
  induction hr with
  | refl w cs => exact fun e hbase n hlen => hbase n hlen
  | step hstep hrest ih =>
    rename_i w' c' cs' k' t' rest' w2' cs2'
    intro e hbase n hlen
    cases n with
    | zero => simp at hlen
    | succ m =>
      have hlt := scanOne_rest_lt _ _ _ _ _ _ hstep
      have hrm : rest'.length ≤ m := by
        simp only [List.length_cons] at hlen hlt
        omega
      have hrec := ih e hbase m hrm
      simp only [lexF, hstep, hrec]

/-! ### Parser lemmas -/

theorem pmatch_ok (e : TokKind) (ts : List Token) (v : String) (ts' : List Token)
    (h : pmatch e ts = .ok (v, ts')) : ts = (e, v) :: ts' := by
  cases ts with
  | nil => exact Except.noConfusion h
  | cons t ts0 =>
    obtain ⟨tk, tv⟩ := t
    simp only [pmatch] at h
    split at h
    · next hkind =>
      simp only [Except.ok.injEq, Prod.mk.injEq] at h
      obtain ⟨rfl, rfl⟩ := h
      rw [hkind]
    · exact Except.noConfusion h

theorem pmatch_error (e : TokKind) (ts : List Token) (err : PErr)
    (h : pmatch e ts = .error err) :
    ∃ got, err = .expected e got := by
  cases ts with
  | nil =>
    refine ⟨none, ?_⟩
    simp only [pmatch, Except.error.injEq] at h
    exact h.symm
  | cons t ts0 =>
    simp only [pmatch] at h
    split at h
    · exact Except.noConfusion h
    · refine ⟨some t, ?_⟩
      simp only [Except.error.injEq] at h
      exact h.symm

/-- Shape of a successful `def`-branch parse: the consumed tokens are
exactly the six header tokens (empty body, next token not `print`) or
the twelve header-plus-print tokens. -/
theorem parseDefStep_ok (ts : List Token) (nd : Node) (ts' : List Token)
    (h : parseDefStep ts = .ok (nd, ts')) :
    (∃ v1 f v3 p v5 v6 k2 u rest2,
      ts = (TokKind.DEF, v1) :: (TokKind.ID, f) :: (TokKind.LPAREN, v3) :: (TokKind.ID, p) ::
           (TokKind.RPAREN, v5) :: (TokKind.COLON, v6) :: ts' ∧
      ts' = (k2, u) :: rest2 ∧ k2 ≠ TokKind.PRINT ∧ nd = Node.func f p []) ∨
    (∃ v1 f v3 p v5 v6 v7 v8 str v10 r v12,
      ts = (TokKind.DEF, v1) :: (TokKind.ID, f) :: (TokKind.LPAREN, v3) :: (TokKind.ID, p) ::
           (TokKind.RPAREN, v5) :: (TokKind.COLON, v6) :: (TokKind.PRINT, v7) ::
           (TokKind.LPAREN, v8) :: (TokKind.STRING, str) :: (TokKind.PLUS, v10) ::
           (TokKind.ID, r) :: (TokKind.RPAREN, v12) :: ts' ∧
      nd = Node.func f p [Stmt.print str r]) := by
  unfold parseDefStep at h
  cases h1 : pmatch .DEF ts with
  | error e =>
    simp only [h1] at h
    exact Except.noConfusion h
  | ok pr1 =>
  obtain ⟨v1, ts1⟩ := pr1
  simp only [h1] at h
  cases h2 : pmatch .ID ts1 with
  | error e =>
    simp only [h2] at h
    exact Except.noConfusion h
  | ok pr2 =>
  obtain ⟨f, ts2⟩ := pr2
  simp only [h2] at h
  cases h3 : pmatch .LPAREN ts2 with
  | error e =>
    simp only [h3] at h
    exact Except.noConfusion h
  | ok pr3 =>
  obtain ⟨v3, ts3⟩ := pr3
  simp only [h3] at h
  cases h4 : pmatch .ID ts3 with
  | error e =>
    simp only [h4] at h
    exact Except.noConfusion h
  | ok pr4 =>
  obtain ⟨p, ts4⟩ := pr4
  simp only [h4] at h
  cases h5 : pmatch .RPAREN ts4 with
  | error e =>
    simp only [h5] at h
    exact Except.noConfusion h
  | ok pr5 =>
  obtain ⟨v5, ts5⟩ := pr5
  simp only [h5] at h
  cases h6 : pmatch .COLON ts5 with
  | error e =>
    simp only [h6] at h
    exact Except.noConfusion h
  | ok pr6 =>
  obtain ⟨v6, ts6⟩ := pr6
  simp only [h6] at h
  have e1 := pmatch_ok _ _ _ _ h1
  have e2 := pmatch_ok _ _ _ _ h2
  have e3 := pmatch_ok _ _ _ _ h3
  have e4 := pmatch_ok _ _ _ _ h4
  have e5 := pmatch_ok _ _ _ _ h5
  have e6 := pmatch_ok _ _ _ _ h6
  cases hts6 : ts6 with
  | nil =>
    rw [hts6] at h
    exact Except.noConfusion h
  | cons t7 rest7 =>
  obtain ⟨k2, u⟩ := t7
  rw [hts6] at h
  simp only at h
  by_cases hk2 : k2 = TokKind.PRINT
  · rw [if_pos hk2] at h
    subst hk2
    cases h7 : pmatch .PRINT ts6 with
    | error e =>
      rw [hts6] at h7
      simp only [h7] at h
      exact Except.noConfusion h
    | ok pr7 =>
    obtain ⟨v7, ts7⟩ := pr7
    rw [hts6] at h7
    simp only [h7] at h
    cases h8 : pmatch .LPAREN ts7 with
    | error e =>
      simp only [h8] at h
      exact Except.noConfusion h
    | ok pr8 =>
    obtain ⟨v8, ts8⟩ := pr8
    simp only [h8] at h
    cases h9 : pmatch .STRING ts8 with
    | error e =>
      simp only [h9] at h
      exact Except.noConfusion h
    | ok pr9 =>
    obtain ⟨str, ts9⟩ := pr9
    simp only [h9] at h
    cases h10 : pmatch .PLUS ts9 with
    | error e =>
      simp only [h10] at h
      exact Except.noConfusion h
    | ok pr10 =>
    obtain ⟨v10, ts10⟩ := pr10
    simp only [h10] at h
    cases h11 : pmatch .ID ts10 with
    | error e =>
      simp only [h11] at h
      exact Except.noConfusion h
    | ok pr11 =>
    obtain ⟨r, ts11⟩ := pr11
    simp only [h11] at h
    cases h12 : pmatch .RPAREN ts11 with
    | error e =>
      simp only [h12] at h
      exact Except.noConfusion h
    | ok pr12 =>
    obtain ⟨v12, ts12⟩ := pr12
    simp only [h12] at h
    simp only [Except.ok.injEq, Prod.mk.injEq] at h
    obtain ⟨rfl, rfl⟩ := h
    have e7 := pmatch_ok _ _ _ _ h7
    have e8 := pmatch_ok _ _ _ _ h8
    have e9 := pmatch_ok _ _ _ _ h9
    have e10 := pmatch_ok _ _ _ _ h10
    have e11 := pmatch_ok _ _ _ _ h11
    have e12 := pmatch_ok _ _ _ _ h12
    right
    refine ⟨v1, f, v3, p, v5, v6, v7, v8, str, v10, r, v12, ?_, rfl⟩
    rw [e1, e2, e3, e4, e5, e6, hts6, e7, e8, e9, e10, e11, e12]
  · rw [if_neg hk2] at h
    simp only [Except.ok.injEq, Prod.mk.injEq] at h
    obtain ⟨rfl, rfl⟩ := h
    left
    refine ⟨v1, f, v3, p, v5, v6, k2, u, rest7, ?_, rfl, hk2, rfl⟩
    rw [e1, e2, e3, e4, e5, e6, hts6]

/-- The `def` branch fails with `indexError` only when the input is
exactly the six header tokens with the colon last. -/
theorem parseDefStep_idx (ts : List Token)
    (h : parseDefStep ts = .error .indexError) :
    ∃ v1 f v3 p v5 v6,
      ts = [(TokKind.DEF, v1), (TokKind.ID, f), (TokKind.LPAREN, v3), (TokKind.ID, p),
            (TokKind.RPAREN, v5), (TokKind.COLON, v6)] := by
  unfold parseDefStep at h
  cases h1 : pmatch .DEF ts with
  | error e =>
    simp only [h1, Except.error.injEq] at h
    obtain ⟨got, hg⟩ := pmatch_error _ _ _ h1
    rw [h] at hg
    exact PErr.noConfusion hg
  | ok pr1 =>
  obtain ⟨v1, ts1⟩ := pr1
  simp only [h1] at h
  cases h2 : pmatch .ID ts1 with
  | error e =>
    simp only [h2, Except.error.injEq] at h
    obtain ⟨got, hg⟩ := pmatch_error _ _ _ h2
    rw [h] at hg
    exact PErr.noConfusion hg
  | ok pr2 =>
  obtain ⟨f, ts2⟩ := pr2
  simp only [h2] at h
  cases h3 : pmatch .LPAREN ts2 with
  | error e =>
    simp only [h3, Except.error.injEq] at h
    obtain ⟨got, hg⟩ := pmatch_error _ _ _ h3
    rw [h] at hg
    exact PErr.noConfusion hg
  | ok pr3 =>
  obtain ⟨v3, ts3⟩ := pr3
  simp only [h3] at h
  cases h4 : pmatch .ID ts3 with
  | error e =>
    simp only [h4, Except.error.injEq] at h
    obtain ⟨got, hg⟩ := pmatch_error _ _ _ h4
    rw [h] at hg
    exact PErr.noConfusion hg
  | ok pr4 =>
  obtain ⟨p, ts4⟩ := pr4
  simp only [h4] at h
  cases h5 : pmatch .RPAREN ts4 with
  | error e =>
    simp only [h5, Except.error.injEq] at h
    obtain ⟨got, hg⟩ := pmatch_error _ _ _ h5
    rw [h] at hg
    exact PErr.noConfusion hg
  | ok pr5 =>
  obtain ⟨v5, ts5⟩ := pr5
  simp only [h5] at h
  cases h6 : pmatch .COLON ts5 with
  | error e =>
    simp only [h6, Except.error.injEq] at h
    obtain ⟨got, hg⟩ := pmatch_error _ _ _ h6
    rw [h] at hg
    exact PErr.noConfusion hg
  | ok pr6 =>
  obtain ⟨v6, ts6⟩ := pr6
  simp only [h6] at h
  have e1 := pmatch_ok _ _ _ _ h1
  have e2 := pmatch_ok _ _ _ _ h2
  have e3 := pmatch_ok _ _ _ _ h3
  have e4 := pmatch_ok _ _ _ _ h4
  have e5 := pmatch_ok _ _ _ _ h5
  have e6 := pmatch_ok _ _ _ _ h6
  cases hts6 : ts6 with
  | nil =>
    refine ⟨v1, f, v3, p, v5, v6, ?_⟩
    rw [e1, e2, e3, e4, e5, e6, hts6]
  | cons t7 rest7 =>
  obtain ⟨k2, u⟩ := t7
  rw [hts6] at h
  simp only at h
  by_cases hk2 : k2 = TokKind.PRINT
  · rw [if_pos hk2] at h
    subst hk2
    cases h7 : pmatch .PRINT ts6 with
    | error e =>
      rw [hts6] at h7
      simp only [h7, Except.error.injEq] at h
      obtain ⟨got, hg⟩ := pmatch_error _ _ _ h7
      rw [h] at hg
      exact PErr.noConfusion hg
    | ok pr7 =>
    obtain ⟨v7, ts7⟩ := pr7
    rw [hts6] at h7
    simp only [h7] at h
    cases h8 : pmatch .LPAREN ts7 with
    | error e =>
      simp only [h8, Except.error.injEq] at h
      obtain ⟨got, hg⟩ := pmatch_error _ _ _ h8
      rw [h] at hg
      exact PErr.noConfusion hg
    | ok pr8 =>
    obtain ⟨v8, ts8⟩ := pr8
    simp only [h8] at h
    cases h9 : pmatch .STRING ts8 with
    | error e =>
      simp only [h9, Except.error.injEq] at h
      obtain ⟨got, hg⟩ := pmatch_error _ _ _ h9
      rw [h] at hg
      exact PErr.noConfusion hg
    | ok pr9 =>
    obtain ⟨str, ts9⟩ := pr9
    simp only [h9] at h
    cases h10 : pmatch .PLUS ts9 with
    | error e =>
      simp only [h10, Except.error.injEq] at h
      obtain ⟨got, hg⟩ := pmatch_error _ _ _ h10
      rw [h] at hg
      exact PErr.noConfusion hg
    | ok pr10 =>
    obtain ⟨v10, ts10⟩ := pr10
    simp only [h10] at h
    cases h11 : pmatch .ID ts10 with
    | error e =>
      simp only [h11, Except.error.injEq] at h
      obtain ⟨got, hg⟩ := pmatch_error _ _ _ h11
      rw [h] at hg
      exact PErr.noConfusion hg
    | ok pr11 =>
    obtain ⟨r, ts11⟩ := pr11
    simp only [h11] at h
    cases h12 : pmatch .RPAREN ts11 with
    | error e =>
      simp only [h12, Except.error.injEq] at h
      obtain ⟨got, hg⟩ := pmatch_error _ _ _ h12
      rw [h] at hg
      exact PErr.noConfusion hg
    | ok pr12 =>
    obtain ⟨v12, ts12⟩ := pr12
    simp only [h12] at h
    exact Except.noConfusion h
  · rw [if_neg hk2] at h
    exact Except.noConfusion h

/-- Shape of a successful call-branch parse. -/
theorem parseCallStep_ok (ts : List Token) (nd : Node) (ts' : List Token)
    (h : parseCallStep ts = .ok (nd, ts')) :
    ∃ f v2 str v4,
      ts = (TokKind.ID, f) :: (TokKind.LPAREN, v2) :: (TokKind.STRING, str) ::
           (TokKind.RPAREN, v4) :: ts' ∧ nd = Node.call f str := by
  unfold parseCallStep at h
  cases h1 : pmatch .ID ts with
  | error e =>
    simp only [h1] at h
    exact Except.noConfusion h
  | ok pr1 =>
  obtain ⟨f, ts1⟩ := pr1
  simp only [h1] at h
  cases h2 : pmatch .LPAREN ts1 with
  | error e =>
    simp only [h2] at h
    exact Except.noConfusion h
  | ok pr2 =>
  obtain ⟨v2, ts2⟩ := pr2
  simp only [h2] at h
  cases h3 : pmatch .STRING ts2 with
  | error e =>
    simp only [h3] at h
    exact Except.noConfusion h
  | ok pr3 =>
  obtain ⟨str, ts3⟩ := pr3
  simp only [h3] at h
  cases h4 : pmatch .RPAREN ts3 with
  | error e =>
    simp only [h4] at h
    exact Except.noConfusion h
  | ok pr4 =>
  obtain ⟨v4, ts4⟩ := pr4
  simp only [h4] at h
  simp only [Except.ok.injEq, Prod.mk.injEq] at h
  obtain ⟨rfl, rfl⟩ := h
  refine ⟨f, v2, str, v4, ?_, rfl⟩
  rw [pmatch_ok _ _ _ _ h1, pmatch_ok _ _ _ _ h2, pmatch_ok _ _ _ _ h3, pmatch_ok _ _ _ _ h4]

/-- The call branch only ever fails with an expected-kind error. -/
theorem parseCallStep_error (ts : List Token) (err : PErr)
    (h : parseCallStep ts = .error err) : ∃ exp got, err = PErr.expected exp got := by
  unfold parseCallStep at h
  cases h1 : pmatch .ID ts with
  | error e =>
    simp only [h1, Except.error.injEq] at h
    obtain ⟨got, hg⟩ := pmatch_error _ _ _ h1
    exact ⟨.ID, got, h ▸ hg⟩
  | ok pr1 =>
  obtain ⟨f, ts1⟩ := pr1
  simp only [h1] at h
  cases h2 : pmatch .LPAREN ts1 with
  | error e =>
    simp only [h2, Except.error.injEq] at h
    obtain ⟨got, hg⟩ := pmatch_error _ _ _ h2
    exact ⟨.LPAREN, got, h ▸ hg⟩
  | ok pr2 =>
  obtain ⟨v2, ts2⟩ := pr2
  simp only [h2] at h
  cases h3 : pmatch .STRING ts2 with
  | error e =>
    simp only [h3, Except.error.injEq] at h
    obtain ⟨got, hg⟩ := pmatch_error _ _ _ h3
    exact ⟨.STRING, got, h ▸ hg⟩
  | ok pr3 =>
  obtain ⟨str, ts3⟩ := pr3
  simp only [h3] at h
  cases h4 : pmatch .RPAREN ts3 with
  | error e =>
    simp only [h4, Except.error.injEq] at h
    obtain ⟨got, hg⟩ := pmatch_error _ _ _ h4
    exact ⟨.RPAREN, got, h ▸ hg⟩
  | ok pr4 =>
  obtain ⟨v4, ts4⟩ := pr4
  simp only [h4] at h
  exact Except.noConfusion h

/-- Token kinds the grammar never consumes. -/
def badKind (k : TokKind) : Prop :=
  k = TokKind.NUMBER ∨ k = TokKind.ASSIGN ∨ k = TokKind.COMMA

/-- A token of a never-consumed kind anywhere in the input forces the
parse loop to fail, and not with the (unreachable) index error. -/
theorem parseF_bad : ∀ (n : Nat) (ts : List Token), ts.length ≤ n →
    ∀ t ∈ ts, badKind t.1 →
    ∃ e, parseF n ts = .error e ∧ e ≠ PErr.indexError := by
  intro n
  induction n with
  | zero =>
    intro ts hlen t ht _
    cases ts with
    | nil => exact absurd ht (List.not_mem_nil t)
    | cons a l => simp at hlen
  | succ n ih =>
    intro ts hlen t ht hbad
    cases ts with
    | nil => exact absurd ht (List.not_mem_nil t)
    | cons t0 rest =>
      by_cases hdef : t0.1 = TokKind.DEF
      · cases hps : parseDefStep (t0 :: rest) with
        | error e =>
          refine ⟨e, by simp only [parseF, if_pos hdef, hps], ?_⟩
          intro he
          subst he
          obtain ⟨v1, f, v3, p, v5, v6, hts⟩ := parseDefStep_idx _ hps
          rw [hts] at ht
          simp only [List.mem_cons, List.not_mem_nil, or_false] at ht
          rcases ht with rfl | rfl | rfl | rfl | rfl | rfl <;> simp [badKind] at hbad
        | ok pr =>
          obtain ⟨nd, ts2⟩ := pr
          rcases parseDefStep_ok _ _ _ hps with
            ⟨v1, f, v3, p, v5, v6, k2, u, rest2, hts, hts2, hk2, hnd⟩ |
            ⟨v1, f, v3, p, v5, v6, v7, v8, str, v10, r, v12, hts, hnd⟩
          · have hmem : t ∈ ts2 := by
              rw [hts] at ht
              simp only [List.mem_cons] at ht
              rcases ht with rfl | rfl | rfl | rfl | rfl | rfl | hm
              · simp [badKind] at hbad
              · simp [badKind] at hbad
              · simp [badKind] at hbad
              · simp [badKind] at hbad
              · simp [badKind] at hbad
              · simp [badKind] at hbad
              · exact hm
            have hlen2 : ts2.length ≤ n := by
              rw [hts] at hlen
              simp only [List.length_cons] at hlen
              omega
            obtain ⟨e, he, hne⟩ := ih ts2 hlen2 t hmem hbad
            exact ⟨e, by simp only [parseF, if_pos hdef, hps, he], hne⟩
          · have hmem : t ∈ ts2 := by
              rw [hts] at ht
              simp only [List.mem_cons] at ht
              rcases ht with rfl | rfl | rfl | rfl | rfl | rfl | rfl | rfl | rfl | rfl | rfl | rfl | hm
              · simp [badKind] at hbad
              · simp [badKind] at hbad
              · simp [badKind] at hbad
              · simp [badKind] at hbad
              · simp [badKind] at hbad
              · simp [badKind] at hbad
              · simp [badKind] at hbad
              · simp [badKind] at hbad
              · simp [badKind] at hbad
              · simp [badKind] at hbad
              · simp [badKind] at hbad
              · simp [badKind] at hbad
              · exact hm
            have hlen2 : ts2.length ≤ n := by
              rw [hts] at hlen
              simp only [List.length_cons] at hlen
              omega
            obtain ⟨e, he, hne⟩ := ih ts2 hlen2 t hmem hbad
            exact ⟨e, by simp only [parseF, if_pos hdef, hps, he], hne⟩
      · by_cases hcall : t0.1 = TokKind.ID ∧ lparenNext rest = true
        · cases hps : parseCallStep (t0 :: rest) with
          | error e =>
            obtain ⟨exp, got, hg⟩ := parseCallStep_error _ _ hps
            refine ⟨e, by simp only [parseF, if_neg hdef, if_pos hcall, hps], ?_⟩
            rw [hg]
            simp
          | ok pr =>
            obtain ⟨nd, ts2⟩ := pr
            obtain ⟨f, v2, str, v4, hts, hnd⟩ := parseCallStep_ok _ _ _ hps
            have hmem : t ∈ ts2 := by
              rw [hts] at ht
              simp only [List.mem_cons] at ht
              rcases ht with rfl | rfl | rfl | rfl | hm
              · simp [badKind] at hbad
              · simp [badKind] at hbad
              · simp [badKind] at hbad
              · simp [badKind] at hbad
              · exact hm
            have hlen2 : ts2.length ≤ n := by
              rw [hts] at hlen
              simp only [List.length_cons] at hlen
              omega
            obtain ⟨e, he, hne⟩ := ih ts2 hlen2 t hmem hbad
            exact ⟨e, by simp only [parseF, if_neg hdef, if_pos hcall, hps, he], hne⟩
        · exact ⟨.unsupported, by simp only [parseF, if_neg hdef, if_neg hcall], by simp⟩

/-- Unfolding of one `def`-branch iteration of the parse loop. -/
theorem parseF_def_step (n : Nat) (t0 : Token) (rest : List Token) (h0 : t0.1 = TokKind.DEF) :
    parseF (n + 1) (t0 :: rest) =
      match parseDefStep (t0 :: rest) with
      | .error e => .error e
      | .ok (nd, ts2) =>
        match parseF n ts2 with
        | .error e => .error e
        | .ok ast => .ok (nd :: ast) := by
  simp only [parseF, if_pos h0]

/-! ### Generator lemmas -/

/-- The C++ node loop emits lines in traversal order: the lines of an
appended suffix follow the lines of the prefix, with the `main_added`
flag threaded through. -/
theorem cppBody_append (xs ys : List Node) (ma : Bool) :
    cppBody (xs ++ ys) ma =
      ((cppBody xs ma).1 ++ (cppBody ys (cppBody xs ma).2).1,
       (cppBody ys (cppBody xs ma).2).2) := by
  induction xs generalizing ma with
  | nil => simp [cppBody]
  | cons nd xs ih =>
    cases nd with
    | func n p b => simp [cppBody, ih, List.append_assoc]
    | call n a => simp [cppBody, ih, List.append_assoc]

/-- With no call statement present, the node loop emits exactly the
function fragments and never sets `main_added`. -/
theorem cppBody_nocall (nodes : List Node) (h : ∀ nd ∈ nodes, nd.isCall = false) :
    cppBody nodes false = (nodes.flatMap nodeDefLines, false) := by
  induction nodes with
  | nil => simp [cppBody]
  | cons nd rest ih =>
    cases nd with
    | func n p b =>
      have hrest := ih fun x hx => h x (List.mem_cons_of_mem _ hx)
      simp [cppBody, hrest, nodeDefLines]
    | call n a =>
      have := h (Node.call n a) (List.mem_cons_self _ _)
      simp [Node.isCall] at this

/-! ### Claim theorems -/

/-- C1: End-to-end pipeline correctness on the reference input: the
source text tokenizes to the expected sequence (beginning Keyword-Def,
Identifier `greet`, LParen, Identifier `name`, RParen, Colon,
Keyword-Print), parses successfully, `generate_ir` yields exactly the
reference IR text, and the target text contains the `greet` function
header taking a string parameter, the entry-point opening line, and the
`greet("World")` call line. -/
theorem claim1_pipeline_reference_input :
    tokenize "def greet(name):\n    print(\"Hello \" + name)\ngreet(\"World\")" =
      .ok [(TokKind.DEF, "def"), (TokKind.ID, "greet"), (TokKind.LPAREN, "("), (TokKind.ID, "name"),
           (TokKind.RPAREN, ")"), (TokKind.COLON, ":"), (TokKind.PRINT, "print"),
           (TokKind.LPAREN, "("), (TokKind.STRING, "\"Hello \""), (TokKind.PLUS, "+"),
           (TokKind.ID, "name"), (TokKind.RPAREN, ")"), (TokKind.ID, "greet"),
           (TokKind.LPAREN, "("), (TokKind.STRING, "\"World\""), (TokKind.RPAREN, ")")] ∧
    ([(TokKind.DEF, "def"), (TokKind.ID, "greet"), (TokKind.LPAREN, "("), (TokKind.ID, "name"),
      (TokKind.RPAREN, ")"), (TokKind.COLON, ":"), (TokKind.PRINT, "print"),
      (TokKind.LPAREN, "("), (TokKind.STRING, "\"Hello \""), (TokKind.PLUS, "+"),
      (TokKind.ID, "name"), (TokKind.RPAREN, ")"), (TokKind.ID, "greet"),
      (TokKind.LPAREN, "("), (TokKind.STRING, "\"World\""), (TokKind.RPAREN, ")")] :
        List Token).take 7 =
      [(TokKind.DEF, "def"), (TokKind.ID, "greet"), (TokKind.LPAREN, "("), (TokKind.ID, "name"),
       (TokKind.RPAREN, ")"), (TokKind.COLON, ":"), (TokKind.PRINT, "print")] ∧
    parse_tokens
      [(TokKind.DEF, "def"), (TokKind.ID, "greet"), (TokKind.LPAREN, "("), (TokKind.ID, "name"),
       (TokKind.RPAREN, ")"), (TokKind.COLON, ":"), (TokKind.PRINT, "print"),
       (TokKind.LPAREN, "("), (TokKind.STRING, "\"Hello \""), (TokKind.PLUS, "+"),
       (TokKind.ID, "name"), (TokKind.RPAREN, ")"), (TokKind.ID, "greet"),
       (TokKind.LPAREN, "("), (TokKind.STRING, "\"World\""), (TokKind.RPAREN, ")")] =
      .ok [Node.func "greet" "name" [Stmt.print "\"Hello \"" "name"],
           Node.call "greet" "\"World\""] ∧
    generate_ir [Node.func "greet" "name" [Stmt.print "\"Hello \"" "name"],
                 Node.call "greet" "\"World\""] =
      "func greet(name)\nt1 = \"Hello \" + name\nprint t1\nendfunc\ncall greet(\"World\")" ∧
    "void greet(string name) \x7b" ∈
      cppAllLines [Node.func "greet" "name" [Stmt.print "\"Hello \"" "name"],
                   Node.call "greet" "\"World\""] ∧
    "\nint main() \x7b" ∈
      cppAllLines [Node.func "greet" "name" [Stmt.print "\"Hello \"" "name"],
                   Node.call "greet" "\"World\""] ∧
    "    greet(\"World\");" ∈
      cppAllLines [Node.func "greet" "name" [Stmt.print "\"Hello \"" "name"],
                   Node.call "greet" "\"World\""] := by
  exact ⟨by decide, by decide, by decide, by decide, by decide, by decide, by decide⟩

/-- C2 counterexample: for the token sequence of `def f(x):` with the
colon as the last token, the parser does not succeed with an empty
body; the unguarded body lookahead reads past the end of the token
sequence and parsing fails with the index error. -/
theorem claim2_counterexample :
    parse_tokens [(TokKind.DEF, "def"), (TokKind.ID, "f"), (TokKind.LPAREN, "("),
                  (TokKind.ID, "x"), (TokKind.RPAREN, ")"), (TokKind.COLON, ":")] =
      .error PErr.indexError := by
  decide

/-- C2 (amended): empty function bodies are legal whenever the colon is
followed by at least one further token that is not the `print` keyword:
such a parse, when it succeeds, yields a `FunctionDef` with an empty
body, and `generate_ir` emits only the `func <name>(<param>)` line and
`endfunc` for it.  (When the colon is the last token of the input the
body check reads past the end and parsing fails instead.) -/
theorem claim2_empty_body_amended :
    (∀ (d f l p r c v : String) (k : TokKind) (rest : List Token) (ast : List Node),
      k ≠ TokKind.PRINT →
      parse_tokens ((TokKind.DEF, d) :: (TokKind.ID, f) :: (TokKind.LPAREN, l) ::
          (TokKind.ID, p) :: (TokKind.RPAREN, r) :: (TokKind.COLON, c) :: (k, v) :: rest) =
        .ok ast →
      ∃ tail, ast = Node.func f p [] :: tail) ∧
    (∀ f p, irLines [Node.func f p []] = ["func " ++ f ++ "(" ++ p ++ ")", "endfunc"]) := by
  constructor
  · intro d f l p r c v k rest ast hk h
    have hds : parseDefStep ((TokKind.DEF, d) :: (TokKind.ID, f) :: (TokKind.LPAREN, l) ::
        (TokKind.ID, p) :: (TokKind.RPAREN, r) :: (TokKind.COLON, c) :: (k, v) :: rest) =
        .ok (Node.func f p [], (k, v) :: rest) := by
      cases k <;> first | exact absurd rfl hk | rfl
    unfold parse_tokens at h
    simp only [List.length_cons] at h
    rw [parseF_def_step _ _ _ rfl] at h
    simp only [hds] at h
    split at h
    · exact Except.noConfusion h
    · next ast' heq =>
      injection h with h2
      exact ⟨ast', h2.symm⟩
  · intro f p
    rfl

/-- C2 witness: the amended statement at a concrete input, where the
empty-bodied function is followed by a call statement. -/
theorem claim2_witness :
    (∃ tail, ([Node.func "f" "x" [], Node.call "g" "\"hi\""] : List Node) =
      Node.func "f" "x" [] :: tail) ∧
    irLines [Node.func "f" "x" []] = ["func f(x)", "endfunc"] := by
  constructor
  · exact claim2_empty_body_amended.1 "def" "f" "(" "x" ")" ":" "g" TokKind.ID
      [(TokKind.LPAREN, "("), (TokKind.STRING, "\"hi\""), (TokKind.RPAREN, ")")]
      [Node.func "f" "x" [], Node.call "g" "\"hi\""] (by decide) (by decide)
  · rw [claim2_empty_body_amended.2 "f" "x"]
    decide

/-- C3: Lexical failure is total and atomic: whenever the scan reaches a
position whose character matches no pattern, the error payload is that
character and the whole `tokenize` call fails with it (no token
sequence is returned); in particular the reference input with a stray
`$` fails naming `$`. -/
theorem claim3_lexical_failure :
    (∀ (s : String) (w2 : Bool) (c : Char) (cs2 : List Char) (e : Char),
      LexReach false s.data w2 (c :: cs2) → scanOne w2 c cs2 = .error e →
      e = c ∧ tokenize s = .error e) ∧
    tokenize "def f(x):\n    print(\"a\" + x) $" = .error '$' := by
  constructor
  · intro s w2 c cs2 e hreach hs
    refine ⟨scanOne_error _ _ _ _ hs, ?_⟩
    have hlex : lexF s.data.length false s.data = .error e :=
      lexF_err_prop false s.data w2 (c :: cs2) hreach e (lexF_err_at _ _ _ _ hs) _ le_rfl
    simp only [tokenize, hlex]
  · decide

/-- C3 witness: the general statement applied at the one-character
input `$`, where the mismatch is at the start of the scan. -/
theorem claim3_witness :
    ('$' : Char) = '$' ∧ tokenize (String.mk ['$']) = .error '$' :=
  claim3_lexical_failure.1 (String.mk ['$']) false '$' [] '$'
    (LexReach.refl false ['$']) (by decide)

/-- C4: For every syntax-node sequence with no `CallStatement`, the
target text is exactly the fixed preamble followed by the function
fragments: the node loop emits only the function-definition lines,
`main_added` stays false, and no entry-point opening, call, or
return-success/closing lines appear. -/
theorem claim4_no_call_no_main (nodes : List Node) (h : ∀ nd ∈ nodes, nd.isCall = false) :
    cppBody nodes false = (nodes.flatMap nodeDefLines, false) ∧
    generate_cpp nodes =
      String.intercalate "\n" (preambleLines ++ nodes.flatMap nodeDefLines) := by
  refine ⟨cppBody_nocall nodes h, ?_⟩
  simp [generate_cpp, cppAllLines, cppBody_nocall nodes h]

/-- C4 witness: a one-function program with no call statements. -/
theorem claim4_witness :
    cppBody [Node.func "f" "x" []] false =
      ([Node.func "f" "x" []].flatMap nodeDefLines, false) ∧
    generate_cpp [Node.func "f" "x" []] =
      String.intercalate "\n" (preambleLines ++ [Node.func "f" "x" []].flatMap nodeDefLines) :=
  claim4_no_call_no_main [Node.func "f" "x" []] (by decide)

/-- C5: Exact-match-or-fail parsing of the colon: the input missing its
colon tokenizes as expected and fails to parse with a SyntaxError
carrying expected kind Colon and the actual Keyword-Print token; in
general the `match` primitive fails immediately with the expected kind
and the actual token, or the end-of-input marker when the tokens are
exhausted. -/
theorem claim5_colon_mismatch :
    tokenize "def f(x) print(\"a\"+x)" =
      .ok [(TokKind.DEF, "def"), (TokKind.ID, "f"), (TokKind.LPAREN, "("), (TokKind.ID, "x"),
           (TokKind.RPAREN, ")"), (TokKind.PRINT, "print"), (TokKind.LPAREN, "("),
           (TokKind.STRING, "\"a\""), (TokKind.PLUS, "+"), (TokKind.ID, "x"),
           (TokKind.RPAREN, ")")] ∧
    parse_tokens
      [(TokKind.DEF, "def"), (TokKind.ID, "f"), (TokKind.LPAREN, "("), (TokKind.ID, "x"),
       (TokKind.RPAREN, ")"), (TokKind.PRINT, "print"), (TokKind.LPAREN, "("),
       (TokKind.STRING, "\"a\""), (TokKind.PLUS, "+"), (TokKind.ID, "x"),
       (TokKind.RPAREN, ")")] =
      .error (PErr.expected TokKind.COLON (some (TokKind.PRINT, "print"))) ∧
    (∀ (e : TokKind) (t : Token) (ts : List Token), t.1 ≠ e →
      pmatch e (t :: ts) = .error (PErr.expected e (some t))) ∧
    (∀ e : TokKind, pmatch e [] = .error (PErr.expected e none)) := by
  refine ⟨by decide, by decide, ?_, fun e => rfl⟩
  intro e t ts hne
  cases t with
  | mk tk tv => simp [pmatch, hne]

/-- C5 witness: the mismatch primitive applied at the concrete colon
versus print situation. -/
theorem claim5_witness :
    pmatch TokKind.COLON ((TokKind.PRINT, "print") :: []) =
      .error (PErr.expected TokKind.COLON (some (TokKind.PRINT, "print"))) :=
  claim5_colon_mismatch.2.2.1 TokKind.COLON (TokKind.PRINT, "print") [] (by decide)

/-- C6: Lexical coverage invariant: whenever `tokenize` succeeds, there
is an ordered chunk decomposition of the input whose texts concatenate
back to the whole input (no gaps, no overlaps), whose non-discarded
chunks are exactly the produced tokens in order, and whose discarded
chunks are whitespace/newline runs. -/
theorem claim6_lexical_coverage (s : String) (toks : List Token) (h : tokenize s = .ok toks) :
    ∃ chunks : List (TokKind × List Char),
      (chunks.map Prod.snd).flatten = s.data ∧
      (chunks.filter (fun p => !(p.1 == TokKind.NEWLINE || p.1 == TokKind.SKIP))).map
        (fun p => (p.1, String.mk p.2)) = toks ∧
      ∀ p ∈ chunks, (p.1 = TokKind.NEWLINE ∨ p.1 = TokKind.SKIP) →
        ∀ x ∈ p.2, x = ' ' ∨ x = '\t' ∨ x = '\n' := by
  unfold tokenize at h
  cases hlex : lexF s.data.length false s.data with
  | error e =>
    rw [hlex] at h
    exact Except.noConfusion h
  | ok toksL =>
    simp only [hlex] at h
    injection h with h4
    obtain ⟨chunks, h1, h2, h3⟩ := lexF_chunks _ _ _ _ hlex
    refine ⟨chunks, h1, ?_, h3⟩
    rw [h2, h4]

/-- C6 witness: the coverage statement at the concrete input `a b`. -/
theorem claim6_witness :
    ∃ chunks : List (TokKind × List Char),
      (chunks.map Prod.snd).flatten = ("a b" : String).data ∧
      (chunks.filter (fun p => !(p.1 == TokKind.NEWLINE || p.1 == TokKind.SKIP))).map
        (fun p => (p.1, String.mk p.2)) = [(TokKind.ID, "a"), (TokKind.ID, "b")] ∧
      ∀ p ∈ chunks, (p.1 = TokKind.NEWLINE ∨ p.1 = TokKind.SKIP) →
        ∀ x ∈ p.2, x = ' ' ∨ x = '\t' ∨ x = '\n' :=
  claim6_lexical_coverage "a b" [(TokKind.ID, "a"), (TokKind.ID, "b")] (by decide)

/-- C7: Target emission preserves traversal order with no reordering
pass: the lines of an appended node-sequence suffix follow the lines of
the prefix with the `main_added` flag threaded through; the
return-success and closing lines are appended only after all nodes; and
for a `CallStatement` preceding a `FunctionDef` the entry-point opening
line and the call line are emitted before the function's lines. -/
theorem claim7_emission_order :
    (∀ (xs ys : List Node) (ma : Bool),
      cppBody (xs ++ ys) ma =
        ((cppBody xs ma).1 ++ (cppBody ys (cppBody xs ma).2).1,
         (cppBody ys (cppBody xs ma).2).2)) ∧
    (∀ nodes : List Node,
      generate_cpp nodes = String.intercalate "\n"
        (preambleLines ++ (cppBody nodes false).1 ++
          (if (cppBody nodes false).2 then ["    return 0;", "\x7d"] else []))) ∧
    (∀ (cn ca fn fp : String) (b : List Stmt),
      (cppBody [Node.call cn ca, Node.func fn fp b] false).1 =
        ["\nint main() \x7b", "    " ++ cn ++ "(" ++ ca ++ ");"] ++
          (("void " ++ fn ++ "(string " ++ fp ++ ") \x7b") ::
            (cppStmtLines b ++ ["\x7d"]))) := by
  refine ⟨cppBody_append, fun nodes => rfl, ?_⟩
  intro cn ca fn fp b
  simp [cppBody, funcFragment]

/-- C8: Parameter/reference mismatch is not an error: even when the
declared parameter differs from the identifier referenced in the print
statement, parsing succeeds with no equality check and both generators
emit the written names verbatim (the declared parameter in the headers,
the referenced identifier in the body lines). -/
theorem claim8_mismatch_not_error (f p str r : String) (h : p ≠ r) :
    parse_tokens [(TokKind.DEF, "def"), (TokKind.ID, f), (TokKind.LPAREN, "("), (TokKind.ID, p),
        (TokKind.RPAREN, ")"), (TokKind.COLON, ":"), (TokKind.PRINT, "print"),
        (TokKind.LPAREN, "("), (TokKind.STRING, str), (TokKind.PLUS, "+"), (TokKind.ID, r),
        (TokKind.RPAREN, ")")] =
      .ok [Node.func f p [Stmt.print str r]] ∧
    irLines [Node.func f p [Stmt.print str r]] =
      ["func " ++ f ++ "(" ++ p ++ ")", "t1 = " ++ str ++ " + " ++ r, "print t1", "endfunc"] ∧
    (cppBody [Node.func f p [Stmt.print str r]] false).1 =
      ["void " ++ f ++ "(string " ++ p ++ ") \x7b",
       "    cout << " ++ str ++ " + " ++ r ++ " << endl;", "\x7d"] := by
  exact ⟨rfl, rfl, rfl⟩

/-- C8 witness: a mismatched parameter `x` versus referenced `y`. -/
theorem claim8_witness :
    parse_tokens [(TokKind.DEF, "def"), (TokKind.ID, "f"), (TokKind.LPAREN, "("),
        (TokKind.ID, "x"), (TokKind.RPAREN, ")"), (TokKind.COLON, ":"),
        (TokKind.PRINT, "print"), (TokKind.LPAREN, "("), (TokKind.STRING, "\"a\""),
        (TokKind.PLUS, "+"), (TokKind.ID, "y"), (TokKind.RPAREN, ")")] =
      .ok [Node.func "f" "x" [Stmt.print "\"a\"" "y"]] ∧
    irLines [Node.func "f" "x" [Stmt.print "\"a\"" "y"]] =
      ["func " ++ "f" ++ "(" ++ "x" ++ ")", "t1 = " ++ "\"a\"" ++ " + " ++ "y",
       "print t1", "endfunc"] ∧
    (cppBody [Node.func "f" "x" [Stmt.print "\"a\"" "y"]] false).1 =
      ["void " ++ "f" ++ "(string " ++ "x" ++ ") \x7b",
       "    cout << " ++ "\"a\"" ++ " + " ++ "y" ++ " << endl;", "\x7d"] :=
  claim8_mismatch_not_error "f" "x" "\"a\"" "y" (by decide)

/-- C9: On input that is empty or all whitespace/newlines the pipeline
succeeds end to end: no tokens, no syntax nodes, empty IR text, and
target text that is exactly the fixed preamble (no entry point). -/
theorem claim9_empty_input (s : String) (h : ∀ c ∈ s.data, c = ' ' ∨ c = '\t' ∨ c = '\n') :
    tokenize s = .ok [] ∧ parse_tokens [] = .ok [] ∧ generate_ir [] = "" ∧
    generate_cpp [] = "#include <iostream>\n#include <string>\nusing namespace std;\n" := by
  refine ⟨?_, rfl, rfl, by decide⟩
  have hlex := lexF_white s.data.length false s.data le_rfl h
  simp only [tokenize, hlex]
  rfl

/-- C9 witness: the whitespace-only input consisting of a space, a tab
and a newline. -/
theorem claim9_witness :
    tokenize " \t\n" = .ok [] ∧ parse_tokens [] = .ok [] ∧ generate_ir [] = "" ∧
    generate_cpp [] = "#include <iostream>\n#include <string>\nusing namespace std;\n" :=
  claim9_empty_input " \t\n" (by decide)

/-- C10: The lexer can produce NumberLiteral, Assign and Comma tokens,
but no grammar rule consumes these kinds: any token sequence containing
one of them fails to parse with a SyntaxError (never the index error,
and never a syntax-node sequence). -/
theorem claim10_unconsumable_kinds :
    tokenize "1" = .ok [(TokKind.NUMBER, "1")] ∧
    tokenize "=" = .ok [(TokKind.ASSIGN, "=")] ∧
    tokenize "," = .ok [(TokKind.COMMA, ",")] ∧
    (∀ (ts : List Token) (t : Token), t ∈ ts → badKind t.1 →
      ∃ e, parse_tokens ts = .error e ∧ e ≠ PErr.indexError) := by
  refine ⟨by decide, by decide, by decide, ?_⟩
  intro ts t ht hbad
  exact parseF_bad ts.length ts le_rfl t ht hbad

/-- C10 witness: a lone NumberLiteral token fails to parse with a
SyntaxError. -/
theorem claim10_witness :
    ∃ e, parse_tokens [(TokKind.NUMBER, "1")] = .error e ∧ e ≠ PErr.indexError :=
  claim10_unconsumable_kinds.2.2.2 [(TokKind.NUMBER, "1")] (TokKind.NUMBER, "1")
    (List.mem_cons_self _ _) (Or.inl rfl)

end CdProject
